import Mathlib

/-!
Verification of the ATF_SHOWCASES client-side pipeline.

Shallow embedding of the pagination controller, the filter/search
controllers (public and admin), the admin form validators, the admin list
orchestrator, the upload-progress sequencer and the delete-confirmation
flow, translated from the JavaScript sources
(`src/user/js/components/Pagination.js`, `src/admin/js/validators.js`,
`src/admin/js/components/Filters.js`, and the unnamed admin
app/API/modal modules).
-/

namespace ATF

/-! ## Pagination controller (`src/user/js/components/Pagination.js`) -/

/-- One rendered item of the pagination window: a page number or the
`'...'` ellipsis marker pushed by `Pagination.getPageNumbers`. -/
inductive PageItem where
  | page (n : ℕ)
  | ellipsis
  deriving DecidableEq, Repr

/-- Embeds `Pagination.getPageNumbers` (Pagination.js lines 81–119).
`maxVisible = 7`; the three `for` loops are rendered as `List.range'`
(first argument the loop start, second the iteration count). -/
def getPageNumbers (currentPage totalPages : ℕ) : List PageItem :=
  if totalPages ≤ 7 then
    (List.range' 1 totalPages).map .page
  else if currentPage ≤ 4 then
    .page 1 :: (List.range' 2 4).map .page ++ [.ellipsis, .page totalPages]
  else if totalPages - 3 ≤ currentPage then
    .page 1 :: .ellipsis :: (List.range' (totalPages - 4) 5).map .page
  else
    .page 1 :: .ellipsis ::
      (List.range' (currentPage - 1) 3).map .page ++ [.ellipsis, .page totalPages]

/-- The page-number window exactly as the specification words it: all pages
when `totalPages ≤ 7`; `[1,2,3,4,5,…,last]` when `currentPage ≤ 4`;
`[1,…,last-4,last-3,last-2,last-1,last]` when `currentPage ≥ last-3`;
`[1,…,current-1,current,current+1,…,last]` otherwise. -/
def specPageWindow (currentPage totalPages : ℕ) : List PageItem :=
  if totalPages ≤ 7 then
    (List.range' 1 totalPages).map .page
  else if currentPage ≤ 4 then
    [.page 1, .page 2, .page 3, .page 4, .page 5, .ellipsis, .page totalPages]
  else if totalPages - 3 ≤ currentPage then
    [.page 1, .ellipsis, .page (totalPages - 4), .page (totalPages - 3),
     .page (totalPages - 2), .page (totalPages - 1), .page totalPages]
  else
    [.page 1, .ellipsis, .page (currentPage - 1), .page currentPage,
     .page (currentPage + 1), .ellipsis, .page totalPages]

/-- A click forwarded to `Pagination.handlePageClick`: the previous/next
arrows, or a numbered page button (`parseInt` of its `data-page`). -/
inductive Click where
  | prev
  | next
  | num (n : ℤ)
  deriving DecidableEq, Repr

/-- The pagination controller's own state: `this.currentPage` and
`this.totalPages`. -/
structure PagState where
  currentPage : ℤ
  totalPages : ℤ
  deriving DecidableEq, Repr

/-- Embeds `Pagination.handlePageClick` (Pagination.js lines 131–156).
Returns the updated state and the list of `onPageChange` invocations
(arguments, in order). The new page is committed, and the callback fired
once, exactly when it differs from the current page and lies in
`[1, totalPages]`. -/
def handlePageClick (s : PagState) (c : Click) : PagState × List ℤ :=
  let newPage : ℤ :=
    match c with
    | .prev => max 1 (s.currentPage - 1)
    | .next => min s.totalPages (s.currentPage + 1)
    | .num n => n
  if newPage ≠ s.currentPage ∧ 1 ≤ newPage ∧ newPage ≤ s.totalPages then
    ({ s with currentPage := newPage }, [newPage])
  else
    (s, [])

/-! ## String primitives modelled from the JavaScript runtime -/

/-- Models the JavaScript `String.prototype.trim` method: the string with
whitespace stripped from both ends. -/
def jsTrim (s : String) : String :=
  String.mk
    (((s.data.dropWhile Char.isWhitespace).reverse.dropWhile
      Char.isWhitespace).reverse)

/-- Models the JavaScript `length` property of a string (code-unit count;
for the basic-plane strings concerned, the character count). -/
def jsLength (s : String) : ℕ := s.data.length

/-! ## Validators (`src/admin/js/validators.js`) -/

/-- Result record of a validator: `{ valid: true }` or
`{ valid: false, message }`. -/
inductive VResult where
  | valid
  | invalid (message : String)
  deriving DecidableEq, Repr

/-- Embeds `Validators.validateSearchQuery` (validators.js lines 218–239):
empty (after trimming, since `!query` and `query.trim() === ''` coincide on
strings) is allowed; a trimmed length below 3 or above 100 is rejected with
the corresponding message. -/
def validateSearchQuery (query : String) : VResult :=
  if jsTrim query = "" then .valid
  else
    let trimmedQuery := jsTrim query
    if jsLength trimmedQuery < 3 then
      .invalid "Search query must be at least 3 characters long"
    else if 100 < jsLength trimmedQuery then
      .invalid "Search query must not exceed 100 characters"
    else .valid

/-- Embeds `Validators.validateDate` (validators.js lines 242–261).
`parseDate` abstracts `new Date(s).getTime()` of the host (returning
`none` for an invalid date, as for `" "`); `endOfToday` is the millisecond
instant `today.setHours(23, 59, 59, 999)` computes. -/
def validateDate (parseDate : String → Option ℤ) (endOfToday : ℤ)
    (dateString : String) : VResult :=
  if jsTrim dateString = "" then .valid
  else
    match parseDate dateString with
    | none => .invalid "Invalid date format"
    | some t =>
      if endOfToday < t then .invalid "Date cannot be in the future"
      else .valid

/-- The instant `today.setHours(23, 59, 59, 999)` produces, given the
current local-time instant `now` in milliseconds: the last millisecond of
the current local day. -/
def endOfDay (now : ℤ) : ℤ := now - now % 86400000 + 86399999

/-! ## Filter controllers (`src/admin/js/components/Filters.js` and the
public `Filters` module) -/

/-- The filter state `this.filters` owned by a filter controller. -/
structure FiltersState where
  search : String
  date : String
  category : String
  deriving DecidableEq, Repr

/-- Outcome of a filter-change handler: the resulting filter state, whether
`notifyFiltersChange` fired (which is what triggers the orchestrator's
fetch), and the surfaced error message if any (inline field error for the
admin search box, toast for the admin date filter). -/
structure FilterChangeOutcome where
  filters : FiltersState
  notified : Bool
  errorMsg : Option String
  deriving DecidableEq, Repr

/-- Embeds `AdminFilters.handleSearchChange` (admin Filters.js lines
99–111): an invalid query shows an inline error and leaves the state
untouched with no notification; a valid one commits the trimmed value and
notifies. -/
def adminHandleSearchChange (fs : FiltersState) (value : String) :
    FilterChangeOutcome :=
  match validateSearchQuery value with
  | .invalid m => ⟨fs, false, some m⟩
  | .valid => ⟨{ fs with search := jsTrim value }, true, none⟩

/-- Embeds the public `Filters.handleSearchChange` (unnamed part_003 lines
99–105): only a raw length of `≥ 2` or `0` commits the trimmed value and
notifies; otherwise the change is silently dropped. -/
def publicHandleSearchChange (fs : FiltersState) (value : String) :
    FilterChangeOutcome :=
  if 2 ≤ jsLength value ∨ jsLength value = 0 then
    ⟨{ fs with search := jsTrim value }, true, none⟩
  else ⟨fs, false, none⟩

/-- Embeds `AdminFilters.handleDateChange` (admin Filters.js lines
113–122): an invalid date shows a toast and leaves the state untouched
with no notification; a valid one commits the raw value and notifies. -/
def adminHandleDateChange (parseDate : String → Option ℤ) (endOfToday : ℤ)
    (fs : FiltersState) (value : String) : FilterChangeOutcome :=
  match validateDate parseDate endOfToday value with
  | .invalid m => ⟨fs, false, some m⟩
  | .valid => ⟨{ fs with date := value }, true, none⟩

/-! ## URL validation (`Validators.validateUrl`, validators.js lines
7–36) -/

/-- Models the JavaScript `String.prototype.startsWith` method. -/
def jsStartsWith (s p : String) : Bool := p.data.isPrefixOf s.data

/-- An ASCII letter, the `[a-z]` class of the TLD regex under the `i`
flag. -/
def isAsciiLetter (c : Char) : Bool :=
  decide (('a' ≤ c ∧ c ≤ 'z') ∨ ('A' ≤ c ∧ c ≤ 'Z'))

/-- The test of the regex `/\.[a-z]{2,}$/i` on the hostname (validators.js
line 27): some dot in the string is followed by at least two letters that
run to the end. Computed as: the maximal trailing letter run has length at
least two and is preceded by a dot. -/
def tldTest (hostname : String) : Bool :=
  let r := hostname.data.reverse
  let run := r.takeWhile isAsciiLetter
  decide (2 ≤ run.length ∧ (r.drop run.length).head? = some '.')

/-- The property the specification words for the TLD rule: the hostname
ends with a dot followed by at least two letters. -/
def EndsWithDotLetters (hostname : String) : Prop :=
  ∃ a b : List Char, hostname.data = a ++ '.' :: b ∧ 2 ≤ b.length ∧
    ∀ c ∈ b, isAsciiLetter c = true

/-- A forbidden host code point of the URL standard: a host containing one
fails to parse. -/
def forbiddenHostChar (c : Char) : Bool :=
  decide (c ∈ ['\x00', '\t', '\n', '\r', ' ', '#', '/', ':', '<', '>',
    '?', '@', '[', '\\', ']', '^', '|'])

/-- The characters ending the authority section of an http(s) URL. -/
def authorityEnd (c : Char) : Bool :=
  decide (c = '/' ∨ c = '?' ∨ c = '#' ∨ c = '\\')

/-- Models `new URL(s).hostname` of the host runtime for `http://` and
`https://` URLs with a plain (non-IPv6, non-percent-escaped) host:
`none` when the URL constructor throws. The authority runs to the first
`/`, `?`, `#` or `\`; userinfo up to the last `@` is dropped; a `:`
starts the port, which must be all digits; the host itself must be
non-empty and contain no forbidden host code point, and is lowercased. -/
def urlHostname (s : String) : Option String :=
  let rest : Option (List Char) :=
    if jsStartsWith s "https://" then some (s.data.drop 8)
    else if jsStartsWith s "http://" then some (s.data.drop 7)
    else none
  match rest with
  | none => none
  | some rest =>
    let authority := rest.takeWhile (fun c => !authorityEnd c)
    let hostPort :=
      if authority.contains '@' then
        (authority.reverse.takeWhile (fun c => c != '@')).reverse
      else authority
    let host := hostPort.takeWhile (fun c => c != ':')
    let port := hostPort.drop (host.length + 1)
    if host.isEmpty then none
    else if host.any forbiddenHostChar then none
    else if hostPort.contains ':' && !port.all Char.isDigit then none
    else some (String.mk (host.map Char.toLower))

/-- Result record of `Validators.validateUrl`: `{ valid: true, url }` with
the normalized URL, or `{ valid: false, message }`. -/
inductive UrlCheck where
  | ok (url : String)
  | err (message : String)
  deriving DecidableEq, Repr

/-- The scheme-prefixing normalization of `validateUrl` (validators.js
lines 13–16): trim, then prepend `https://` when the string starts with
neither `http://` nor `https://`. -/
def normalizeUrl (url : String) : String :=
  let formattedUrl := jsTrim url
  if !jsStartsWith formattedUrl "http://" &&
      !jsStartsWith formattedUrl "https://" then
    "https://" ++ formattedUrl
  else formattedUrl

/-- Embeds `Validators.validateUrl` (validators.js lines 7–36): empty
input is required-rejected; otherwise the normalized URL must parse (the
`try`/`catch` around `new URL`), have a non-empty hostname, and pass the
TLD regex; on success the normalized URL is returned for storage. -/
def validateUrl (url : String) : UrlCheck :=
  if jsTrim url = "" then .err "URL is required"
  else
    match urlHostname (normalizeUrl url) with
    | none => .err "Invalid URL format"
    | some hostname =>
      if hostname = "" then .err "Invalid URL format"
      else if !tldTest hostname then
        .err "URL must have a valid domain extension"
      else .ok (normalizeUrl url)

/-! ## Entry-form validation and submit
(`Validators.validateEntryForm`, validators.js lines 137–177, and
`AdminApp.handleAddEntry`, part_007 lines 284–334) -/

/-- Embeds `Validators.validateRequired` (validators.js lines 39–44). -/
def validateRequired (value : String) (fieldName : String) : VResult :=
  if jsTrim value = "" then .invalid (fieldName ++ " is required")
  else .valid

/-- Embeds `Validators.validateLength` (validators.js lines 47–65). -/
def validateLength (value : String) (minLength maxLength : ℕ)
    (fieldName : String) : VResult :=
  let trimmedValue := jsTrim value
  if jsLength trimmedValue < minLength then
    .invalid (fieldName ++ " must be at least " ++ toString minLength ++
      " characters long")
  else if maxLength < jsLength trimmedValue then
    .invalid (fieldName ++ " must not exceed " ++ toString maxLength ++
      " characters")
  else .valid

/-- Embeds `Validators.validateWebsiteName` (validators.js lines
88–96). -/
def validateWebsiteName (name : String) : VResult :=
  match validateRequired name "Website name" with
  | .invalid m => .invalid m
  | .valid => validateLength name 2 100 "Website name"

/-- Embeds `Validators.validateDescription` (validators.js lines
99–107). -/
def validateDescription (description : String) : VResult :=
  match validateRequired description "Description" with
  | .invalid m => .invalid m
  | .valid => validateLength description 10 1000 "Description"

/-- A selected file as the validators see it: its MIME type and byte
size. -/
structure ImageFile where
  mimeType : String
  size : ℕ
  deriving DecidableEq, Repr

/-- The `allowedTypes` list of `Validators.validateImageFile`. -/
def allowedImageTypes : List String :=
  ["image/jpeg", "image/jpg", "image/png", "image/gif", "image/webp"]

/-- Embeds `Validators.validateImageFile` (validators.js lines 110–134):
no file is fine (the image is optional); otherwise the MIME type must be
in the allowed set and the size at most 5 MB. -/
def validateImageFile (file : Option ImageFile) : VResult :=
  match file with
  | none => .valid
  | some f =>
    if !allowedImageTypes.contains f.mimeType then
      .invalid "Invalid file type. Only JPEG, PNG, GIF, and WebP images are allowed"
    else if 5 * 1024 * 1024 < f.size then
      .invalid "Image file size must not exceed 5MB"
    else .valid

/-- The add/edit entry form data. -/
structure EntryForm where
  name : String
  category : String
  url : String
  description : String
  imageFile : Option ImageFile
  deriving DecidableEq, Repr

/-- Result record of `Validators.validateEntryForm`: the `valid` flag, the
field-level errors, and the form data with the URL replaced by its
normalized form when URL validation passed. -/
structure FormValidation where
  valid : Bool
  errors : List (String × String)
  data : EntryForm
  deriving DecidableEq, Repr

/-- Embeds `Validators.validateEntryForm` (validators.js lines 137–177):
runs the name, category, URL, description and (when present) image
validators, collects field errors in that order, and is valid exactly when
no error was collected. -/
def validateEntryForm (formData : EntryForm) : FormValidation :=
  let nameResult := validateWebsiteName formData.name
  let categoryResult := validateRequired formData.category "Category"
  let urlResult := validateUrl formData.url
  let descriptionResult := validateDescription formData.description
  let imageResult :=
    match formData.imageFile with
    | some _ => validateImageFile formData.imageFile
    | none => .valid
  let errors :=
    (match nameResult with | .invalid m => [("name", m)] | .valid => []) ++
    (match categoryResult with | .invalid m => [("category", m)] | .valid => []) ++
    (match urlResult with | .err m => [("url", m)] | .ok _ => []) ++
    (match descriptionResult with | .invalid m => [("description", m)] | .valid => []) ++
    (match imageResult with | .invalid m => [("image", m)] | .valid => [])
  { valid := errors.isEmpty
    errors := errors
    data :=
      match urlResult with
      | .ok u => { formData with url := u }
      | .err _ => formData }

/-! ## Upload-progress sequencing (`AdminApp.simulateUploadProgress`,
part_007 lines 522–542, and `AdminAPI.uploadFile`, part_006 lines
184–226) -/

/-- Embeds `AdminApp.simulateUploadProgress`: starting from `p`, each
timer tick adds the next increment (`Math.random() * 15`, abstracted as
the list `incs`); once the running value reaches 90 it is clamped to 90,
the interval stops and the completion callback is scheduled. Returns the
displayed progress values in order together with whether the callback
fired. If the increment list runs out first, the callback has not fired
(yet). -/
def simulateUploadProgress : ℚ → List ℚ → List ℚ × Bool
  | _, [] => ([], false)
  | p, inc :: rest =>
    if 90 ≤ p + inc then ([90], true)
    else
      ((p + inc) :: (simulateUploadProgress (p + inc) rest).1,
        (simulateUploadProgress (p + inc) rest).2)

/-- The value `AdminAPI.uploadFile` hands to `onProgress` for a transfer
progress event: `(e.loaded / e.total) * 100`, a percentage. -/
def uploadProgressPercent (loaded total : ℕ) : ℚ :=
  (loaded : ℚ) / (total : ℚ) * 100

/-- Outcome of `AdminApp.handleAddEntry` (part_007 lines 284–334):
the `createEntry` requests issued, the field errors rendered, whether the
upload-progress UI was shown, the simulated progress values, and whether
the completion (commit) callback fired. -/
structure AddEntryOutcome where
  createCalls : List EntryForm
  fieldErrors : List (String × String)
  progressShown : Bool
  progressValues : List ℚ
  commitFired : Bool
  deriving DecidableEq, Repr

/-- Embeds `AdminApp.handleAddEntry`: failed validation renders the field
errors and performs no request; with an image, the simulated progress runs
and `completeAddEntry` (the single `createEntry` call) fires from its
completion callback; without an image, `completeAddEntry` is called
directly. -/
def handleAddEntry (form : EntryForm) (incs : List ℚ) : AddEntryOutcome :=
  let validation := validateEntryForm form
  if validation.valid = false then
    ⟨[], validation.errors, false, [], false⟩
  else
    match form.imageFile with
    | some _ =>
      let sim := simulateUploadProgress 0 incs
      ⟨if sim.2 then [validation.data] else [], [], true, sim.1, sim.2⟩
    | none => ⟨[validation.data], [], true, [], true⟩

/-- Outcome of `AdminApp.handleImagePreview` (part_007 lines 474–489):
the locally previewed file, the toast shown on an invalid selection,
whether the input was cleared, and the upload requests issued (the handler
only reads the file locally with a `FileReader`, so none ever are). -/
structure PreviewOutcome where
  preview : Option ImageFile
  toast : Option String
  inputCleared : Bool
  uploadCalls : List ImageFile
  deriving DecidableEq, Repr

/-- Embeds `AdminApp.handleImagePreview`: an invalid selection shows a
toast and clears the input; a valid one produces a local preview. No
network request is made on selection. -/
def handleImagePreview (file : Option ImageFile) : PreviewOutcome :=
  match file with
  | none => ⟨none, none, false, []⟩
  | some f =>
    match validateImageFile (some f) with
    | .invalid m => ⟨none, some m, true, []⟩
    | .valid => ⟨some f, none, false, []⟩

/-! ## Admin list orchestrator (`AdminApp.loadEntries`, part_007 lines
118–158) -/

/-- One entry of the in-memory result set, with the fields the delete and
edit flows read. -/
structure Entry where
  sheetName : String
  serial : ℕ
  name : String
  deriving DecidableEq, Repr

/-- The orchestrator state `AdminApp` holds for the list view. -/
structure AdminState where
  isLoading : Bool
  entries : List Entry
  totalEntries : ℕ
  currentPage : ℕ
  deriving DecidableEq, Repr

/-- A completed list request as `loadEntries` observes it: a
`success: true` payload with its entries and total, or a failure (a
transport error or a `success: false` response, both of which reach the
`catch` block). -/
inductive ListResponse where
  | ok (entries : List Entry) (total : ℕ)
  | fail (message : String)
  deriving DecidableEq, Repr

/-- The first half of `AdminApp.loadEntries`, up to the `await`: the
re-entrancy guard (`if (this.isLoading) return`) issues no request and
returns `none` when a fetch is already in flight; otherwise the loading
flag is set and the request goes out. -/
def loadEntriesStart (s : AdminState) : Option AdminState :=
  if s.isLoading then none
  else some { s with isLoading := true }

/-- What the completion of `loadEntries` produced: the next state, whether
the empty-state placeholder was toggled (and to what), the surfaced error
message if any, and the pagination update
`(currentPage, totalPages, totalItems)` if one happened. -/
structure LoadResult where
  state : AdminState
  emptyStateSet : Option Bool
  errorShown : Option String
  paginationUpdated : Option (ℕ × ℕ × ℕ)

/-- The second half of `AdminApp.loadEntries`: on success the result set
and total are replaced, the pagination controller is updated with
`Math.ceil(total / 12)` pages, and the empty-state placeholder is toggled
to whether the page is empty; on failure an error is surfaced (through
`adminAPI.handleError`, modelled by its underlying message) and nothing
else changes. The `finally` clause clears the loading flag either way. -/
def loadEntriesFinish (s : AdminState) (r : ListResponse) : LoadResult :=
  match r with
  | .ok entries total =>
    { state :=
        { s with isLoading := false, entries := entries, totalEntries := total }
      emptyStateSet := some entries.isEmpty
      errorShown := none
      paginationUpdated := some (s.currentPage, (total + 12 - 1) / 12, total) }
  | .fail m =>
    { state := { s with isLoading := false }
      emptyStateSet := none
      errorShown := some m
      paginationUpdated := none }

/-! ## Delete flow (`AdminApp.handleDeleteEntry`, part_007 lines 392–412,
and `DeleteModal`, part_005 lines 343–372) -/

/-- The `this.entries.find(...)` lookup of `handleDeleteEntry`. -/
def findEntry (entries : List Entry) (sheetName : String) (serial : ℕ) :
    Option Entry :=
  entries.find? (fun e => e.sheetName == sheetName && e.serial == serial)

/-- A completed delete request as the confirmation callback observes
it. -/
inductive DeleteResponse where
  | ok
  | fail (message : String)
  deriving DecidableEq, Repr

/-- Outcome of the delete flow: the `deleteEntry` requests issued (each
with partition id, serial and image file reference), the confirmation
prompt shown, the page a post-delete refetch runs at, and the toast
shown. -/
structure DeleteOutcome where
  deleteCalls : List (String × ℕ × String)
  promptMessage : Option String
  refetchPage : Option ℕ
  toast : Option String
  deriving DecidableEq, Repr

/-- Embeds `AdminApp.handleDeleteEntry` composed with `DeleteModal`: an
unknown entry does nothing; otherwise the confirmation prompt carries the
entry's name, and only a click on the confirm button (`confirmed`) runs
the stored callback, which issues the single `deleteEntry` request and, on
success, re-fetches the list at the unchanged `currentPage`. -/
def handleDeleteEntry (s : AdminState) (sheetName : String) (serial : ℕ)
    (imageFileId : String) (confirmed : Bool) (resp : DeleteResponse) :
    DeleteOutcome :=
  match findEntry s.entries sheetName serial with
  | none => ⟨[], none, none, none⟩
  | some entry =>
    let message := "Are you sure you want to delete \"" ++ entry.name ++
      "\"? This action cannot be undone."
    if confirmed then
      match resp with
      | .ok =>
        ⟨[(sheetName, serial, imageFileId)], some message,
          some s.currentPage, some "Entry deleted successfully!"⟩
      | .fail m =>
        ⟨[(sheetName, serial, imageFileId)], some message, none, some m⟩
    else ⟨[], some message, none, none⟩

/-! ## Theorems -/

/-! ## Theorems about the pagination controller -/

/-- C1. For `1 ≤ currentPage ≤ totalPages` the computed window equals the
window the specification describes: all pages when `totalPages ≤ 7`, and
otherwise the near-start (`current ≤ 4`), near-end (`current ≥ last-3`) or
middle shape with collapsed ellipses; in particular for `totalPages = 10`,
current 1, 10 and 5 give `[1,2,3,4,5,…,10]`, `[1,…,6,7,8,9,10]` and
`[1,…,4,5,6,…,10]`. -/
theorem getPageNumbers_matches_spec (currentPage totalPages : ℕ)
    (h1 : 1 ≤ currentPage) (h2 : currentPage ≤ totalPages) :
    getPageNumbers currentPage totalPages = specPageWindow currentPage totalPages ∧
    getPageNumbers 1 10 =
      [.page 1, .page 2, .page 3, .page 4, .page 5, .ellipsis, .page 10] ∧
    getPageNumbers 10 10 =
      [.page 1, .ellipsis, .page 6, .page 7, .page 8, .page 9, .page 10] ∧
    getPageNumbers 5 10 =
      [.page 1, .ellipsis, .page 4, .page 5, .page 6, .ellipsis, .page 10] := by
  refine ⟨?_, by decide, by decide, by decide⟩
  unfold getPageNumbers specPageWindow
  split
  · rfl
  · split
    · rfl
    · split
      · simp only [List.range', List.map, List.cons.injEq, PageItem.page.injEq,
          and_true, true_and]
        omega
      · simp only [List.range', List.map, List.cons_append, List.nil_append,
          List.cons.injEq, PageItem.page.injEq, and_true, true_and]
        omega

/-- Witness for `getPageNumbers_matches_spec` at `currentPage = 3`,
`totalPages = 20`. -/
theorem getPageNumbers_matches_spec_witness :
    getPageNumbers 3 20 = specPageWindow 3 20 :=
  (getPageNumbers_matches_spec 3 20 (by decide) (by decide)).1

/-- C8. In a consistent state (`1 ≤ currentPage ≤ totalPages`): previous
moves to `max 1 (currentPage-1)`, next to `min totalPages (currentPage+1)`,
an out-of-range page number changes nothing, a click on the current page
changes nothing and fires no callback, and any click that changes the page
fires the callback exactly once with the new page. -/
theorem handlePageClick_spec (s : PagState) (c : Click)
    (h1 : 1 ≤ s.currentPage) (h2 : s.currentPage ≤ s.totalPages) :
    ((handlePageClick s .prev).1.currentPage = max 1 (s.currentPage - 1)) ∧
    ((handlePageClick s .next).1.currentPage = min s.totalPages (s.currentPage + 1)) ∧
    (∀ n : ℤ, n < 1 ∨ s.totalPages < n → handlePageClick s (.num n) = (s, [])) ∧
    (handlePageClick s (.num s.currentPage) = (s, [])) ∧
    ((handlePageClick s c).1.currentPage ≠ s.currentPage →
      (handlePageClick s c).2 = [(handlePageClick s c).1.currentPage]) := by
  refine ⟨?_, ?_, ?_, ?_, ?_⟩
  · unfold handlePageClick
    dsimp only
    split
    · rfl
    · next h =>
      show s.currentPage = max 1 (s.currentPage - 1)
      omega
  · unfold handlePageClick
    dsimp only
    split
    · rfl
    · next h =>
      show s.currentPage = min s.totalPages (s.currentPage + 1)
      omega
  · intro n hn
    unfold handlePageClick
    dsimp only
    split
    · omega
    · rfl
  · unfold handlePageClick
    dsimp only
    split
    · omega
    · rfl
  · intro hne
    unfold handlePageClick at *
    dsimp only at *
    split at hne
    · split
      · rfl
      · simp_all
    · simp_all

/-- Witness for `handlePageClick_spec` at `currentPage = 2`,
`totalPages = 5`, clicking next. -/
theorem handlePageClick_spec_witness :
    (handlePageClick ⟨2, 5⟩ .next).1.currentPage = min (5 : ℤ) (2 + 1) :=
  (handlePageClick_spec ⟨2, 5⟩ .next (by decide) (by decide)).2.1

/-! ## Theorems about the search gate -/

/-- C2, counterexample. The claim fails on the code at two concrete
inputs. First, `" "` (one space) is a non-empty admin query whose trimmed
length 0 is below 3, yet it is accepted (the filter-change notification
fires) rather than rejected, because `validateSearchQuery` treats a
whitespace-only query as empty. Second, a 101-character admin query meets
the stated minimum of 3 yet is not committed (no notification fires),
because of the 100-character maximum. -/
theorem searchGate_counterexample :
    (" " : String) ≠ "" ∧ jsLength (jsTrim " ") < 3 ∧
    (adminHandleSearchChange ⟨"", "", ""⟩ " ").notified = true ∧
    (adminHandleSearchChange ⟨"", "", ""⟩ " ").errorMsg = none ∧
    3 ≤ jsLength (jsTrim (String.mk (List.replicate 101 'a'))) ∧
    (adminHandleSearchChange ⟨"", "", ""⟩
      (String.mk (List.replicate 101 'a'))).notified = false := by
  decide

/-- C2, amended. A query that is empty after trimming is always accepted
and clears the admin query; on the admin surface a query with non-empty
trim of trimmed length below 3 is rejected (state unchanged, no
notification, inline error shown), and one of trimmed length in `[3,100]`
is committed (trimmed) with a notification; on the public surface an empty
string is accepted (clearing the query), a non-empty string of raw length
below 2 is rejected silently with state unchanged, and one of raw length
at least 2 is committed (trimmed) with a notification. -/
theorem searchGate_amended (fs : FiltersState) (v : String) :
    (jsTrim v = "" →
      adminHandleSearchChange fs v = ⟨{ fs with search := "" }, true, none⟩) ∧
    (jsTrim v ≠ "" → jsLength (jsTrim v) < 3 →
      adminHandleSearchChange fs v =
        ⟨fs, false, some "Search query must be at least 3 characters long"⟩) ∧
    (3 ≤ jsLength (jsTrim v) → jsLength (jsTrim v) ≤ 100 →
      adminHandleSearchChange fs v =
        ⟨{ fs with search := jsTrim v }, true, none⟩) ∧
    (jsLength v = 0 →
      publicHandleSearchChange fs v =
        ⟨{ fs with search := jsTrim v }, true, none⟩) ∧
    (jsLength v = 1 → publicHandleSearchChange fs v = ⟨fs, false, none⟩) ∧
    (2 ≤ jsLength v →
      publicHandleSearchChange fs v =
        ⟨{ fs with search := jsTrim v }, true, none⟩) := by
  refine ⟨?_, ?_, ?_, ?_, ?_, ?_⟩
  · intro h
    simp [adminHandleSearchChange, validateSearchQuery, h]
  · intro h1 h2
    simp only [adminHandleSearchChange, validateSearchQuery, if_neg h1,
      if_pos h2]
  · intro h1 h2
    have hne : jsTrim v ≠ "" := by
      intro h
      rw [h] at h1
      exact absurd h1 (by decide)
    simp only [adminHandleSearchChange, validateSearchQuery, if_neg hne]
    rw [if_neg (by omega), if_neg (by omega)]
  · intro h
    simp only [publicHandleSearchChange, if_pos (Or.inr h)]
  · intro h
    rw [publicHandleSearchChange, if_neg (by omega)]
  · intro h
    simp only [publicHandleSearchChange, if_pos (Or.inl h)]

/-- Witness for `searchGate_amended`: the four-character admin query
`"abcd"` is committed and notifies. -/
theorem searchGate_amended_witness :
    adminHandleSearchChange ⟨"", "", ""⟩ "abcd" =
      ⟨⟨jsTrim "abcd", "", ""⟩, true, none⟩ :=
  (searchGate_amended ⟨"", "", ""⟩ "abcd").2.2.1 (by decide) (by decide)

/-- C9. An admin query whose trimmed length exceeds 100 characters is
rejected with the exceed message: filter state unchanged and no
filter-change notification (hence no fetch). -/
theorem searchGate_maxLength (fs : FiltersState) (v : String)
    (h : 100 < jsLength (jsTrim v)) :
    adminHandleSearchChange fs v =
      ⟨fs, false, some "Search query must not exceed 100 characters"⟩ := by
  have hne : jsTrim v ≠ "" := by
    intro he
    rw [he] at h
    exact absurd h (by decide)
  simp only [adminHandleSearchChange, validateSearchQuery, if_neg hne]
  rw [if_neg (by omega), if_pos (by omega)]

/-- Witness for `searchGate_maxLength` at a 101-character query. -/
theorem searchGate_maxLength_witness :
    adminHandleSearchChange ⟨"", "", ""⟩ (String.mk (List.replicate 101 'a')) =
      ⟨⟨"", "", ""⟩, false, some "Search query must not exceed 100 characters"⟩ :=
  searchGate_maxLength ⟨"", "", ""⟩ (String.mk (List.replicate 101 'a'))
    (by decide)

/-! ## Theorems about the date gate -/

/-- C10, counterexample. The claim "rejects strings that do not parse as a
date" fails at the concrete input `" "` (one space): the host date parser
rejects `" "` (`new Date(" ")` is an invalid date, modelled by a parser
returning `none` on it), yet `validateDate` accepts it and the date
handler commits it and notifies, because a whitespace-only string is
treated as empty before parsing. -/
theorem dateGate_counterexample :
    (" " : String) ≠ "" ∧
    validateDate (fun _ => none) 0 " " = .valid ∧
    (adminHandleDateChange (fun _ => none) 0 ⟨"", "", ""⟩ " ").notified = true := by
  decide

/-- C10, amended. Admin date-filter validation accepts every string that
is empty after trimming; a string with non-empty trim that does not parse
as a date is rejected with the invalid-format message, and one that parses
to an instant strictly later than the end of the current day (the last
millisecond of the day, `now - now % 86400000 + 86399999`, i.e. local
23:59:59.999) is rejected as a future date — in both rejection cases the
date filter state is unchanged and no notification (hence no fetch) fires;
a parsed instant up to the end of today is committed with a
notification. -/
theorem dateGate_amended (parseDate : String → Option ℤ) (now : ℤ)
    (fs : FiltersState) (v : String) :
    (jsTrim v = "" →
      adminHandleDateChange parseDate (endOfDay now) fs v =
        ⟨{ fs with date := v }, true, none⟩) ∧
    (jsTrim v ≠ "" → parseDate v = none →
      adminHandleDateChange parseDate (endOfDay now) fs v =
        ⟨fs, false, some "Invalid date format"⟩) ∧
    (∀ t, jsTrim v ≠ "" → parseDate v = some t → endOfDay now < t →
      adminHandleDateChange parseDate (endOfDay now) fs v =
        ⟨fs, false, some "Date cannot be in the future"⟩) ∧
    (∀ t, jsTrim v ≠ "" → parseDate v = some t → t ≤ endOfDay now →
      adminHandleDateChange parseDate (endOfDay now) fs v =
        ⟨{ fs with date := v }, true, none⟩) ∧
    now ≤ endOfDay now ∧ endOfDay now % 86400000 = 86399999 := by
  refine ⟨?_, ?_, ?_, ?_, ?_, ?_⟩
  · intro h
    simp [adminHandleDateChange, validateDate, h]
  · intro h1 h2
    simp only [adminHandleDateChange, validateDate, if_neg h1, h2]
  · intro t h1 h2 h3
    simp only [adminHandleDateChange, validateDate, if_neg h1, h2,
      if_pos h3]
  · intro t h1 h2 h3
    simp only [adminHandleDateChange, validateDate, if_neg h1, h2]
    rw [if_neg (by omega)]
  · unfold endOfDay
    omega
  · unfold endOfDay
    omega

/-- Witness for `dateGate_amended`: with the clock at instant 0, a date
string parsing to a strictly later instant than the end of that day is
rejected as a future date. -/
theorem dateGate_amended_witness :
    adminHandleDateChange
      (fun s => if s = "2020-01-01" then some 1577836800000 else none)
      (endOfDay 0) ⟨"", "", ""⟩ "2020-01-01" =
      ⟨⟨"", "", ""⟩, false, some "Date cannot be in the future"⟩ :=
  (dateGate_amended
      (fun s => if s = "2020-01-01" then some 1577836800000 else none)
      0 ⟨"", "", ""⟩ "2020-01-01").2.2.1 1577836800000
    (by decide) (by decide) (by decide)

/-! ## Theorems about the admin list orchestrator -/

/-- C4. The re-entrancy guard of `loadEntries`: a trigger arriving while a
fetch is in flight (`isLoading = true`) issues no request and is dropped;
otherwise the loading flag is set before the request goes out; and the
completion of a request — success or failure — clears the flag. -/
theorem loadEntries_singleFlight (s : AdminState) (r : ListResponse) :
    (s.isLoading = true → loadEntriesStart s = none) ∧
    (s.isLoading = false →
      loadEntriesStart s = some { s with isLoading := true }) ∧
    (∀ s', loadEntriesStart s = some s' → s'.isLoading = true) ∧
    (loadEntriesFinish s r).state.isLoading = false := by
  refine ⟨?_, ?_, ?_, ?_⟩
  · intro h
    simp [loadEntriesStart, h]
  · intro h
    simp [loadEntriesStart, h]
  · intro s' h
    unfold loadEntriesStart at h
    split at h
    · exact absurd h (by simp)
    · simp only [Option.some.injEq] at h
      subst h
      rfl
  · cases r <;> rfl

/-- Witness for `loadEntries_singleFlight`: a trigger in a loading state
is dropped. -/
theorem loadEntries_singleFlight_witness :
    loadEntriesStart ⟨true, [], 0, 1⟩ = none :=
  (loadEntries_singleFlight ⟨true, [], 0, 1⟩ (.ok [] 0)).1 rfl

/-- C5. A failed list fetch surfaces an error and leaves the previous
result set (entries and total), the page and the pagination display
untouched; only a successful response replaces the result set; a
successful response with zero entries shows the empty-state placeholder
and is not an error. -/
theorem loadEntries_errorPolicy (s : AdminState) (m : String)
    (es : List Entry) (total : ℕ) :
    (loadEntriesFinish s (.fail m)).state.entries = s.entries ∧
    (loadEntriesFinish s (.fail m)).state.totalEntries = s.totalEntries ∧
    (loadEntriesFinish s (.fail m)).state.currentPage = s.currentPage ∧
    (loadEntriesFinish s (.fail m)).errorShown = some m ∧
    (loadEntriesFinish s (.fail m)).emptyStateSet = none ∧
    (loadEntriesFinish s (.fail m)).paginationUpdated = none ∧
    (loadEntriesFinish s (.ok es total)).state.entries = es ∧
    (loadEntriesFinish s (.ok es total)).state.totalEntries = total ∧
    (loadEntriesFinish s (.ok es total)).errorShown = none ∧
    (loadEntriesFinish s (.ok es total)).emptyStateSet = some es.isEmpty ∧
    (loadEntriesFinish s (.ok [] total)).emptyStateSet = some true ∧
    (loadEntriesFinish s (.ok [] total)).errorShown = none :=
  ⟨rfl, rfl, rfl, rfl, rfl, rfl, rfl, rfl, rfl, rfl, rfl, rfl⟩

/-! ## Theorems about the delete flow -/

/-- C7. When the target entry exists: the confirmation prompt carries its
display name; without confirmation the delete endpoint is never called;
with confirmation it is called exactly once with the partition id
(`sheetName`), serial and image file reference, and on success the list is
re-fetched at the unchanged current page. An unknown target does
nothing. -/
theorem deleteEntry_confirmation (s : AdminState) (sheetName : String)
    (serial : ℕ) (imageFileId : String) (confirmed : Bool)
    (resp : DeleteResponse) (entry : Entry)
    (hfind : findEntry s.entries sheetName serial = some entry) :
    entry.sheetName = sheetName ∧ entry.serial = serial ∧
    (handleDeleteEntry s sheetName serial imageFileId confirmed
        resp).promptMessage =
      some ("Are you sure you want to delete \"" ++ entry.name ++
        "\"? This action cannot be undone.") ∧
    (confirmed = false →
      (handleDeleteEntry s sheetName serial imageFileId confirmed
        resp).deleteCalls = []) ∧
    (confirmed = true →
      (handleDeleteEntry s sheetName serial imageFileId confirmed
        resp).deleteCalls = [(sheetName, serial, imageFileId)]) ∧
    (confirmed = true → resp = .ok →
      (handleDeleteEntry s sheetName serial imageFileId confirmed
        resp).refetchPage = some s.currentPage) ∧
    (∀ sn ser img c r', findEntry s.entries sn ser = none →
      handleDeleteEntry s sn ser img c r' = ⟨[], none, none, none⟩) := by
  have hp := List.find?_some hfind
  simp only [Bool.and_eq_true, beq_iff_eq] at hp
  refine ⟨hp.1, hp.2, ?_, ?_, ?_, ?_, ?_⟩
  · unfold handleDeleteEntry
    rw [hfind]
    cases confirmed
    · rfl
    · cases resp <;> rfl
  · intro hc
    subst hc
    unfold handleDeleteEntry
    rw [hfind]
    rfl
  · intro hc
    subst hc
    unfold handleDeleteEntry
    rw [hfind]
    cases resp <;> rfl
  · intro hc hr
    subst hc
    subst hr
    unfold handleDeleteEntry
    rw [hfind]
    rfl
  · intro sn ser img c r' hnone
    unfold handleDeleteEntry
    rw [hnone]

/-- Witness for `deleteEntry_confirmation`: confirming the prompt for the
only entry issues the one delete call with its partition, serial and image
reference. -/
theorem deleteEntry_confirmation_witness :
    (handleDeleteEntry ⟨false, [⟨"Tools", 1, "MySite"⟩], 1, 3⟩ "Tools" 1
      "img123" true .ok).deleteCalls = [("Tools", 1, "img123")] :=
  (deleteEntry_confirmation ⟨false, [⟨"Tools", 1, "MySite"⟩], 1, 3⟩ "Tools" 1
    "img123" true .ok ⟨"Tools", 1, "MySite"⟩ (by decide)).2.2.2.2.1 rfl

/-! ## Theorems about upload progress and commit-on-submit -/

/-- Invariants of one run of the progress interval: starting below 90 with
non-negative increments, the displayed values are non-decreasing, bounded
by 90 and at least the start, and if the completion callback fired the
last displayed value is 90. -/
theorem simulateUploadProgress_props (incs : List ℚ) : ∀ p : ℚ, p < 90 →
    (∀ x ∈ incs, 0 ≤ x) →
    List.Chain' (· ≤ ·) (simulateUploadProgress p incs).1 ∧
    (∀ x ∈ (simulateUploadProgress p incs).1, x ≤ 90 ∧ p ≤ x) ∧
    ((simulateUploadProgress p incs).2 = true →
      (simulateUploadProgress p incs).1.getLast? = some 90) := by
  induction incs with
  | nil =>
    intro p hp h
    refine ⟨by simp [simulateUploadProgress], by simp [simulateUploadProgress], ?_⟩
    simp [simulateUploadProgress]
  | cons inc rest ih =>
    intro p hp h
    have hinc : 0 ≤ inc := h inc (by simp)
    have hrest : ∀ x ∈ rest, 0 ≤ x := fun x hx => h x (by simp [hx])
    simp only [simulateUploadProgress]
    split
    · next h90 =>
      refine ⟨by simp, ?_, by intro _; simp⟩
      intro x hx
      simp only [List.mem_singleton] at hx
      subst hx
      exact ⟨le_refl _, le_of_lt hp⟩
    · next h90 =>
      push_neg at h90
      obtain ⟨hchain, hbounds, hlast⟩ := ih (p + inc) h90 hrest
      refine ⟨?_, ?_, ?_⟩
      · rw [List.chain'_cons']
        refine ⟨fun y hy => ?_, hchain⟩
        exact (hbounds y (List.mem_of_mem_head? hy)).2
      · intro x hx
        rcases List.mem_cons.mp hx with rfl | hx'
        · exact ⟨le_of_lt h90, le_add_of_nonneg_right hinc⟩
        · obtain ⟨h1, h2⟩ := hbounds x hx'
          exact ⟨h1, le_trans (le_add_of_nonneg_right hinc) h2⟩
      · intro hf
        have hl := hlast hf
        cases htail : (simulateUploadProgress (p + inc) rest).1 with
        | nil =>
          rw [htail] at hl
          simp at hl
        | cons b t =>
          rw [htail] at hl
          show ((p + inc) :: b :: t).getLast? = some 90
          rw [List.getLast?_cons_cons]
          exact hl

/-- C6, counterexample. A concrete run of the submit path's progress
indicator (increments of 14 per tick, within the `Math.random() * 15`
range) completes — the commit callback fires — with a final reported value
of 90, not 1.0: the reported values are percentages clamped at 90, never
the fraction 1.0 the claim states. -/
theorem uploadProgress_counterexample :
    (simulateUploadProgress 0 [14, 14, 14, 14, 14, 14, 14]).2 = true ∧
    (simulateUploadProgress 0 [14, 14, 14, 14, 14, 14, 14]).1.getLast? =
      some 90 ∧ (90 : ℚ) ≠ 1 ∧
    (14 : ℚ) ∈ (simulateUploadProgress 0 [14, 14, 14, 14, 14, 14, 14]).1 ∧
    ¬ (14 : ℚ) ≤ 1 := by
  refine ⟨by norm_num [simulateUploadProgress], ?_, by norm_num, ?_, by norm_num⟩
  · norm_num [simulateUploadProgress]
  · norm_num [simulateUploadProgress]

/-- C6, amended. During an entry create with an attached image, the
progress callback is invoked zero or more times with monotonically
non-decreasing percentage values bounded by 90 and culminating at 90 when
the commit callback fires (the transfer-level `uploadFile` would report
`loaded / total * 100`, non-decreasing and culminating at 100, but is
never called); the commit — the single `createEntry` request — happens
only as part of a form submit that passed client-side validation, and
never on file selection alone. -/
theorem uploadProgress_amended (incs : List ℚ) (form : EntryForm)
    (f : Option ImageFile) (loaded₁ loaded₂ total : ℕ)
    (hpos : ∀ x ∈ incs, 0 ≤ x) (hle : loaded₁ ≤ loaded₂) (htot : total ≠ 0) :
    List.Chain' (· ≤ ·) (simulateUploadProgress 0 incs).1 ∧
    (∀ x ∈ (simulateUploadProgress 0 incs).1, x ≤ 90) ∧
    ((simulateUploadProgress 0 incs).2 = true →
      (simulateUploadProgress 0 incs).1.getLast? = some 90) ∧
    ((handleAddEntry form incs).commitFired = true →
      (validateEntryForm form).valid = true) ∧
    ((handleAddEntry form incs).createCalls ≠ [] →
      (validateEntryForm form).valid = true ∧
      (handleAddEntry form incs).createCalls = [(validateEntryForm form).data]) ∧
    (handleImagePreview f).uploadCalls = [] ∧
    uploadProgressPercent loaded₁ total ≤ uploadProgressPercent loaded₂ total ∧
    uploadProgressPercent total total = 100 := by
  obtain ⟨hchain, hbounds, hlast⟩ :=
    simulateUploadProgress_props incs 0 (by norm_num) hpos
  refine ⟨hchain, fun x hx => (hbounds x hx).1, hlast, ?_, ?_, ?_, ?_, ?_⟩
  · intro hc
    by_cases hv : (validateEntryForm form).valid = false
    · simp [handleAddEntry, hv] at hc
    · simpa using hv
  · intro hc
    by_cases hv : (validateEntryForm form).valid = false
    · simp [handleAddEntry, hv] at hc
    · have hvt : (validateEntryForm form).valid = true := by simpa using hv
      refine ⟨hvt, ?_⟩
      cases himg : form.imageFile with
      | none => simp [handleAddEntry, hvt, himg]
      | some fi =>
        by_cases hfired : (simulateUploadProgress 0 incs).2 = true
        · simp [handleAddEntry, hvt, himg, hfired]
        · simp [handleAddEntry, hvt, himg, hfired] at hc
  · cases f with
    | none => rfl
    | some fi =>
      unfold handleImagePreview
      cases hv : validateImageFile (some fi) <;> simp [hv]
  · unfold uploadProgressPercent
    have htpos : (0 : ℚ) < total := by
      exact_mod_cast Nat.pos_of_ne_zero htot
    gcongr
  · unfold uploadProgressPercent
    have : (total : ℚ) ≠ 0 := by exact_mod_cast htot
    field_simp

/-- Witness for `uploadProgress_amended`: a run with increments 10 and 20
has non-decreasing displayed values. -/
theorem uploadProgress_amended_witness :
    List.Chain' (· ≤ ·) (simulateUploadProgress 0 [10, 20]).1 :=
  (uploadProgress_amended [10, 20] ⟨"", "", "", "", none⟩ none 1 2 4
    (by decide) (by decide) (by decide)).1

/-! ## Theorems about URL validation -/

/-- `takeWhile` of a list whose front all satisfies the test, followed by
an element failing it, is exactly that front. -/
theorem takeWhile_front (p : Char → Bool) (xs : List Char) (y : Char)
    (ys : List Char) (hxs : ∀ x ∈ xs, p x = true) (hy : p y = false) :
    (xs ++ y :: ys).takeWhile p = xs := by
  induction xs with
  | nil =>
    rw [List.nil_append, List.takeWhile_cons, hy]
    rfl
  | cons a as ih =>
    have ha : p a = true := hxs a (by simp)
    rw [List.cons_append, List.takeWhile_cons, ha]
    simp only [if_true]
    rw [ih (fun x hx => hxs x (by simp [hx]))]

/-- The source's regex test agrees with the wording of the specification:
the hostname ends with a dot followed by at least two letters. -/
theorem tldTest_iff (hostname : String) :
    tldTest hostname = true ↔ EndsWithDotLetters hostname := by
  unfold tldTest EndsWithDotLetters
  simp only [decide_eq_true_eq]
  constructor
  · rintro ⟨hlen, hhead⟩
    set r := hostname.data.reverse with hr
    set run := r.takeWhile isAsciiLetter with hrun
    have hsplit : run ++ r.dropWhile isAsciiLetter = r := by
      rw [hrun]
      exact List.takeWhile_append_dropWhile isAsciiLetter r
    have hdrop : r.drop run.length = r.dropWhile isAsciiLetter := by
      conv_lhs => rw [← hsplit]
      exact List.drop_left _ _
    rw [hdrop] at hhead
    obtain ⟨t, ht⟩ : ∃ t, r.dropWhile isAsciiLetter = '.' :: t := by
      cases hcase : r.dropWhile isAsciiLetter with
      | nil => rw [hcase] at hhead; cases hhead
      | cons b tl =>
        rw [hcase] at hhead
        simp only [List.head?_cons, Option.some.injEq] at hhead
        exact ⟨tl, by rw [hhead]⟩
    refine ⟨t.reverse, run.reverse, ?_, by simpa using hlen, ?_⟩
    · have hreq : r = run ++ '.' :: t := by rw [← hsplit, ht]
      have h2 : hostname.data = r.reverse := by rw [hr, List.reverse_reverse]
      rw [h2, hreq]
      simp
    · intro c hc
      exact List.mem_takeWhile_imp (by simpa using hc)
  · rintro ⟨a, b, hdata, hblen, hletters⟩
    have hr : hostname.data.reverse = b.reverse ++ '.' :: a.reverse := by
      rw [hdata]
      simp
    have hall : ∀ x ∈ b.reverse, isAsciiLetter x = true :=
      fun x hx => hletters x (by simpa using hx)
    have hdot : isAsciiLetter '.' = false := by decide
    have htake : (b.reverse ++ '.' :: a.reverse).takeWhile isAsciiLetter =
        b.reverse := takeWhile_front _ _ _ _ hall hdot
    constructor
    · rw [hr, htake]
      simpa using hblen
    · rw [hr, htake, List.drop_left]
      rfl

/-- C3. URL validation accepts the input exactly when the trimmed,
scheme-prefixed form parses to a hostname that ends with a dot followed by
at least two letters; an accepted URL is stored in its normalized form
(the entry form's data carries it); `google.com` is accepted as
`https://google.com`, `not a url` is rejected as an invalid URL; and a URL
failure makes entry-form validation fail with a url field error, so a
submit issues no create request. -/
theorem validateUrl_spec (u : String) :
    ((∃ s, validateUrl u = .ok s) ↔
      ∃ h, urlHostname (normalizeUrl u) = some h ∧ EndsWithDotLetters h) ∧
    (∀ s, validateUrl u = .ok s → s = normalizeUrl u) ∧
    (∀ form : EntryForm, ∀ s, validateUrl form.url = .ok s →
      (validateEntryForm form).data.url = s) ∧
    validateUrl "google.com" = .ok "https://google.com" ∧
    validateUrl "not a url" = .err "Invalid URL format" ∧
    (∀ form : EntryForm, ∀ m, validateUrl form.url = .err m →
      (validateEntryForm form).valid = false ∧
      ("url", m) ∈ (validateEntryForm form).errors ∧
      (handleAddEntry form []).createCalls = []) := by
  refine ⟨?_, ?_, ?_, by decide, by decide, ?_⟩
  · by_cases h0 : jsTrim u = ""
    · have hnorm : normalizeUrl u = "https://" := by
        simp only [normalizeUrl, h0]
        decide
      constructor
      · rintro ⟨s, hs⟩
        unfold validateUrl at hs
        rw [if_pos h0] at hs
        cases hs
      · rintro ⟨hst, hh, _⟩
        rw [hnorm] at hh
        have hnone : urlHostname "https://" = none := by decide
        rw [hnone] at hh
        cases hh
    · unfold validateUrl
      rw [if_neg h0]
      cases hca : urlHostname (normalizeUrl u) with
      | none => simp
      | some hostname =>
        dsimp only
        by_cases hemp : hostname = ""
        · subst hemp
          simp only [if_pos rfl]
          constructor
          · rintro ⟨s, hs⟩
            cases hs
          · rintro ⟨h', hh, hE⟩
            simp only [Option.some.injEq] at hh
            subst hh
            exact absurd ((tldTest_iff "").mpr hE) (by decide)
        · rw [if_neg hemp]
          by_cases htld : tldTest hostname = true
          · simp only [htld, Bool.not_true, Bool.false_eq_true, if_false]
            constructor
            · rintro ⟨s, hs⟩
              exact ⟨hostname, rfl, (tldTest_iff hostname).mp htld⟩
            · rintro ⟨h', hh, hE⟩
              exact ⟨normalizeUrl u, rfl⟩
          · have htld' : tldTest hostname = false := by
              simpa using htld
            simp only [htld', Bool.not_false, if_true]
            constructor
            · rintro ⟨s, hs⟩
              cases hs
            · rintro ⟨h', hh, hE⟩
              simp only [Option.some.injEq] at hh
              subst hh
              exact absurd ((tldTest_iff hostname).mpr hE) (by simp [htld'])
  · intro s hs
    unfold validateUrl at hs
    by_cases h0 : jsTrim u = ""
    · rw [if_pos h0] at hs
      cases hs
    · rw [if_neg h0] at hs
      cases hca : urlHostname (normalizeUrl u) with
      | none =>
        rw [hca] at hs
        cases hs
      | some hostname =>
        rw [hca] at hs
        dsimp only at hs
        by_cases hemp : hostname = ""
        · rw [if_pos hemp] at hs
          cases hs
        · rw [if_neg hemp] at hs
          by_cases htld : (!tldTest hostname) = true
          · rw [if_pos htld] at hs
            cases hs
          · rw [if_neg htld] at hs
            injection hs with h
            exact h.symm
  · intro form s hs
    simp [validateEntryForm, hs]
  · intro form m hm
    have hmem : ("url", m) ∈ (validateEntryForm form).errors := by
      simp only [validateEntryForm, hm]
      simp
    have hve : (validateEntryForm form).valid =
        (validateEntryForm form).errors.isEmpty := rfl
    have hvalid : (validateEntryForm form).valid = false := by
      rw [hve]
      cases hE : (validateEntryForm form).errors with
      | nil => exact absurd hE (List.ne_nil_of_mem hmem)
      | cons x xs => rfl
    refine ⟨hvalid, hmem, ?_⟩
    simp [handleAddEntry, hvalid]

/-- Witness for `validateUrl_spec`: the accepted form of `google.com` is
its normalization. -/
theorem validateUrl_spec_witness :
    "https://google.com" = normalizeUrl "google.com" :=
  (validateUrl_spec "google.com").2.1 "https://google.com" (by decide)

end ATF
